import Mathlib

/-!
# Verification of the EM 4-potential coherence simulation (v2.1)

Shallow embedding of `em_potential_coherence_simulation_v2_1.py`: the
coherence functionals, the field generator with its two-node coupling
model, the bit decoder, and the BER leaderboard harness.  Machine floats
are modelled as real numbers; 2-D numpy arrays of shape `(Nt, Nx)` are
modelled as functions `ℕ → ℕ → ℝ` together with explicit dimensions, and
1-D arrays as `List ℝ` or `ℕ → ℝ`.  The pseudo-random streams produced by
`numpy.random.default_rng(seed)` are modelled by an oracle
`gauss : ℕ → ℕ → ℝ` mapping a seed and a draw index to the standard
normal draw; every use of randomness in the source is deterministic given
the seed, which the oracle model captures.
-/

noncomputable section

namespace CoTel

/-- `np.clip(x, lo, hi)` (elementwise): `min hi (max lo x)`. -/
def npClip (x lo hi : ℝ) : ℝ := min hi (max lo x)

/-- Python `int(x)` applied to a float: truncation toward zero. -/
def pyTrunc (x : ℝ) : ℤ := if 0 ≤ x then ⌊x⌋ else ⌈x⌉

/-- Python `round(x)` to an integer: round half to even. -/
def pyRound (x : ℝ) : ℤ :=
  if x - ⌊x⌋ < 1/2 then ⌊x⌋
  else if 1/2 < x - ⌊x⌋ then ⌊x⌋ + 1
  else if Even ⌊x⌋ then ⌊x⌋ else ⌊x⌋ + 1

/-- `np.mean` of a 1-D array (the sources only apply it to nonempty slices). -/
def listMean (l : List ℝ) : ℝ := l.sum / l.length

/-- `np.var` of a 1-D array: mean squared deviation from the mean. -/
def listVar (l : List ℝ) : ℝ := listMean (l.map (fun x => (x - listMean l) ^ 2))

/-- `np.max` of a nonempty 1-D array (`0` on the empty array, unused). -/
def listMax : List ℝ → ℝ
  | [] => 0
  | x :: xs => xs.foldl max x

/-- Composite Simpson rule consuming two intervals at a time:
`h/3 * (y0 + 4*y1 + y2)` per pair of intervals.  The first argument is the
current left sample, the list holds the remaining samples. -/
def simpsonPairs {K : Type} [Field K] (h : K) : K → List K → K
  | y0, y1 :: y2 :: rest => h / 3 * (y0 + 4 * y1 + y2) + simpsonPairs h y2 rest
  | _, _ => 0

/-- `scipy.integrate.simpson(y, dx=h)` on equally spaced samples:
`0` on fewer than two samples, the trapezoid on two samples, composite
Simpson on an odd sample count, and on an even sample count composite
Simpson over the first `N-1` samples plus the parabolic correction
`h*(5*y[-1] + 8*y[-2] - y[-3])/12` for the final interval. -/
def scipySimpson {K : Type} [Field K] (h : K) (ys : List K) : K :=
  match ys with
  | [] => 0
  | [_] => 0
  | [y0, y1] => h * (y0 + y1) / 2
  | y0 :: y1 :: y2 :: rest =>
    let l := y0 :: y1 :: y2 :: rest
    if l.length % 2 = 1 then simpsonPairs h y0 (y1 :: y2 :: rest)
    else (match l.dropLast with
          | z0 :: ztail => simpsonPairs h z0 ztail
          | [] => 0)
      + h * (5 * l.getD (l.length - 1) 0 + 8 * l.getD (l.length - 2) 0
             - l.getD (l.length - 3) 0) / 12

/-- `np.gradient(A, h, axis=0)` on an `(Nt, Nx)` array: one-sided
differences at the boundary rows, central differences inside. -/
def npGradTime (Nt : ℕ) (h : ℝ) (A : ℕ → ℕ → ℝ) : ℕ → ℕ → ℝ :=
  fun t j =>
    if t = 0 then (A 1 j - A 0 j) / h
    else if t = Nt - 1 then (A (Nt - 1) j - A (Nt - 2) j) / h
    else (A (t + 1) j - A (t - 1) j) / (2 * h)

/-- `np.gradient(A, h, axis=1)` on an `(Nt, Nx)` array: one-sided
differences at the boundary columns, central differences inside. -/
def npGradSpace (Nx : ℕ) (h : ℝ) (A : ℕ → ℕ → ℝ) : ℕ → ℕ → ℝ :=
  fun t j =>
    if j = 0 then (A t 1 - A t 0) / h
    else if j = Nx - 1 then (A t (Nx - 1) - A t (Nx - 2)) / h
    else (A t (j + 1) - A t (j - 1)) / (2 * h)

/-- The slice `f[t0 : t+1]` of column `j`, as a list (the causal window). -/
def windowList {α : Type} (f : ℕ → ℕ → α) (t0 t j : ℕ) : List α :=
  (List.range (t + 1 - t0)).map (fun i => f (t0 + i) j)

/-- `EMPotentialCoherence._memory_samples`: `max(1, int(self.tau / dt))`. -/
def memorySamples (tau dt : ℝ) : ℤ := max 1 (pyTrunc (tau / dt))

/-- The `alpha`, `beta`, `tau` fields of the `EMPotentialCoherence`
dataclass. -/
structure EMParams where
  alpha : ℝ
  beta : ℝ
  tau : ℝ

/-- `EMPotentialCoherence.gradient_based`: clipped
`exp(-alpha * simpson window)` of the squared spatial derivative over the
causal window `[max(0, t - n_mem), t]` (natural subtraction realises the
`max(0, ·)`). -/
def gradientBased (p : EMParams) (Nx : ℕ) (A : ℕ → ℕ → ℝ) (dx dt : ℝ) :
    ℕ → ℕ → ℝ :=
  fun t j =>
    let integrand := fun s i => (npGradSpace Nx dx A s i) ^ 2
    let nmem := (memorySamples p.tau dt).toNat
    npClip (Real.exp (-p.alpha * scipySimpson dt (windowList integrand (t - nmem) t j))) 0 1

/-- `EMPotentialCoherence.energy_like`: clipped
`exp(-beta * simpson window)` of the sum of the squared temporal and
spatial derivatives over the causal window. -/
def energyLike (p : EMParams) (Nt Nx : ℕ) (A : ℕ → ℕ → ℝ) (dx dt : ℝ) :
    ℕ → ℕ → ℝ :=
  fun t j =>
    let integrand := fun s i =>
      (npGradTime Nt dt A s i) ^ 2 + (npGradSpace Nx dx A s i) ^ 2
    let nmem := (memorySamples p.tau dt).toNat
    npClip (Real.exp (-p.beta * scipySimpson dt (windowList integrand (t - nmem) t j))) 0 1

/-- `EMPotentialCoherence.phase_wilson_line`: magnitude of the windowed
integral of the accumulated-phase factor, divided by the window duration,
then normalised per spatial column by its own maximum over time (floored
at `1e-12`) and clipped. -/
def phaseWilsonLine (p : EMParams) (Nt : ℕ) (A : ℕ → ℕ → ℝ) (dt : ℝ) :
    ℕ → ℕ → ℝ :=
  let nmem := (memorySamples p.tau dt).toNat
  let phase : ℕ → ℕ → ℝ := fun t j =>
    (((List.range (t + 1)).map (fun s => A s j)).sum) * dt
  let pf : ℕ → ℕ → ℂ := fun t j => Complex.exp (Complex.I * (phase t j))
  let Craw : ℕ → ℕ → ℝ := fun t j =>
    Complex.abs (scipySimpson (dt : ℂ) (windowList pf (t - nmem) t j)) /
      max dt (((t - (t - nmem) + 1 : ℕ) : ℝ) * dt)
  fun t j =>
    let Cmax := max (1e-12) (listMax ((List.range Nt).map (fun s => Craw s j)))
    npClip (Craw t j / Cmax) 0 1

/-- `EMPotentialCoherence.hybrid`: square root of the clipped product of
the gradient and energy-like outputs. -/
def hybrid (p : EMParams) (Nt Nx : ℕ) (A : ℕ → ℕ → ℝ) (dx dt : ℝ) :
    ℕ → ℕ → ℝ :=
  fun t j =>
    Real.sqrt (npClip (gradientBased p Nx A dx dt t j * energyLike p Nt Nx A dx dt t j) 0 1)

/-- `entropy_coherence`: `exp(-gamma * var)` of the causal window,
normalised per spatial column by its own maximum over time (floored at
`1e-12`) and clipped.  The spatial step `dx` is accepted and unused, as in
the source. -/
def entropyCoherence (Nt : ℕ) (A : ℕ → ℕ → ℝ) (dx dt tau gamma : ℝ) :
    ℕ → ℕ → ℝ :=
  let nmem := (max 1 (pyTrunc (tau / dt))).toNat
  let Craw : ℕ → ℕ → ℝ := fun t j =>
    Real.exp (-gamma * listVar (windowList A (t - nmem) t j))
  fun t j =>
    let Cmax := max (1e-12) (listMax ((List.range Nt).map (fun s => Craw s j)))
    npClip (Craw t j / Cmax) 0 1

/-- Speed of light constant `C_LIGHT` from the source. -/
def cLight : ℝ := 299792458

/-- A Python float that is either finite or `np.inf` (the only two cases
the source's `coupling_speed` parameter takes). -/
inductive PyReal where
  | fin (r : ℝ)
  | inf

/-- The exceptions the field generator can raise: the `ValueError` for an
unknown mode (carrying the mode name), the `ZeroDivisionError` from
`len(t) // len(bits)` on an empty bit pattern, and the `IndexError` from
`x[len(x)//4]` on an empty grid or `t[1]` on a one-sample time axis. -/
inductive PyError where
  | unknownScheme (mode : String)
  | zeroDivision
  | indexError

/-- The `params` dict of `generate_em_field`: every key the source reads,
absent keys modelled as `none` (the source substitutes its defaults). -/
structure GenParams where
  A0 : Option ℝ := none
  k : Option ℝ := none
  omega : Option ℝ := none
  seed : Option ℕ := none
  bitPattern : Option (List ℤ) := none
  f0 : Option ℝ := none
  f1 : Option ℝ := none
  xA : Option ℝ := none
  xB : Option ℝ := none
  sigma : Option ℝ := none
  txStrength : Option ℝ := none
  rxStrength : Option ℝ := none
  enableCoupling : Option Bool := none
  couplingSpeed : Option PyReal := none

/-- The entries of the returned `meta` dict that downstream code reads
(`bit_pattern` and `bit_duration`); modes without modulation metadata
return neither. -/
structure FieldMeta where
  bitPattern : Option (List ℤ) := none
  bitDuration : Option ℕ := none

/-- `_bits_to_levels`: `1` for a truthy (nonzero) bit, `-1` otherwise. -/
def bitsToLevels (bits : List ℤ) : List ℝ :=
  bits.map (fun b => if b ≠ 0 then 1 else -1)

/-- The per-time envelope built by the loop
`envelope[i*bit_dur : min((i+1)*bit_dur, len(t))] = lvl`: sample `s`
carries the level of bit `s / bit_dur` when that bit exists, else `0`. -/
def envelopeAt (levels : List ℝ) (bd : ℕ) (s : ℕ) : ℝ :=
  if s / bd < levels.length then levels.getD (s / bd) 0 else 0

/-- The per-time phase shift of the `phase_modulated` mode: `π` for a bit
equal to `1`, `0` otherwise, held for the bit duration. -/
def phaseShiftAt (bits : List ℤ) (bd : ℕ) (s : ℕ) : ℝ :=
  if s / bd < bits.length then (if bits.getD (s / bd) 0 = 1 then Real.pi else 0) else 0

/-- The per-time frequency of the `freq_modulated` mode: `f1` for a bit
equal to `1`, `f0` otherwise, `0` past the last bit window. -/
def freqAt (bits : List ℤ) (f0 f1 : ℝ) (bd : ℕ) (s : ℕ) : ℝ :=
  if s / bd < bits.length then (if bits.getD (s / bd) 0 = 1 then f1 else f0) else 0

/-- `np.convolve(v, np.ones(5)/5, mode="same")` on a length-`n` row:
the zero-padded five-point moving average. -/
def conv5same (n : ℕ) (v : ℕ → ℝ) (i : ℕ) : ℝ :=
  (((List.range 5).map (fun m =>
      if 2 ≤ i + m ∧ i + m - 2 < n then v (i + m - 2) else 0)).sum) / 5

/-- The `delay_steps` computation of the `two_node` mode:
`int(round((0 if v infinite else |x_B - x_A| / v) / dt_step))`, with
Python's banker rounding. -/
def twoNodeDelaySteps (v : PyReal) (xA xB dtStep : ℝ) : ℤ :=
  let delay : ℝ := match v with
    | .inf => 0
    | .fin r => |xB - xA| / r
  pyRound (delay / dtStep)

/-- `np.roll(envelope, d)` on a length-`n` array followed by
`env_delayed[:d] = 0` when `d > 0`: leading `d` samples are zeroed, the
rest are the circularly shifted envelope. -/
def delayedEnvelope (n : ℕ) (d : ℤ) (env : ℕ → ℝ) : ℕ → ℝ :=
  fun s => if (s : ℤ) < d then 0 else env ((((s : ℤ) - d) % (n : ℤ)).toNat)

/-- The mode names `generate_em_field` implements. -/
def supportedModes : List String :=
  ["smooth", "turbulent", "modulated", "phase_modulated", "freq_modulated", "two_node"]

/-- The local `A0 = float(params.get("A0", 1.0))` of `generate_em_field`. -/
def defA0 (p : GenParams) : ℝ := p.A0.getD 1

/-- The local `k = float(params.get("k", 2*np.pi*3))`. -/
def defK (p : GenParams) : ℝ := p.k.getD (2 * Real.pi * 3)

/-- The local `omega = float(params.get("omega", 2*np.pi*5))`. -/
def defOmega (p : GenParams) : ℝ := p.omega.getD (2 * Real.pi * 5)

/-- The local `rng = np.random.default_rng(int(params.get("seed", 1234)))`:
the stream identifier the generator draws from. -/
def defSeed (p : GenParams) : ℕ := p.seed.getD 1234

/-- The base travelling carrier `A0 * sin(k*X - omega*T)`. -/
def carrierField (p : GenParams) (x tvec : ℕ → ℝ) : ℕ → ℕ → ℝ :=
  fun t j => defA0 p * Real.sin (defK p * x j - defOmega p * tvec t)

/-- The local `x_A = float(params.get("x_A", x[len(x)//4]))` of the
`two_node` branch. -/
def twoNodeXA (p : GenParams) (Nx : ℕ) (x : ℕ → ℝ) : ℝ := p.xA.getD (x (Nx / 4))

/-- The local `x_B = float(params.get("x_B", x[3*len(x)//4]))`. -/
def twoNodeXB (p : GenParams) (Nx : ℕ) (x : ℕ → ℝ) : ℝ := p.xB.getD (x (3 * Nx / 4))

/-- The `two_node` bit pattern with its ten-bit default. -/
def twoNodeBits (p : GenParams) : List ℤ :=
  p.bitPattern.getD [1, 0, 1, 1, 0, 1, 0, 0, 1, 1]

/-- The `two_node` bit duration `max(1, len(t) // len(bits))`. -/
def twoNodeBd (p : GenParams) (Nt : ℕ) : ℕ := max 1 (Nt / (twoNodeBits p).length)

/-- The `two_node` transmit envelope. -/
def twoNodeEnv (p : GenParams) (Nt : ℕ) : ℕ → ℝ :=
  envelopeAt (bitsToLevels (twoNodeBits p)) (twoNodeBd p Nt)

/-- The carrier plus the Gaussian-profile transmitter contribution at
`x_A` (the field before any receiver coupling is added). -/
def twoNodeTxField (p : GenParams) (Nx Nt : ℕ) (x tvec : ℕ → ℝ) :
    ℕ → ℕ → ℝ :=
  fun t j =>
    carrierField p x tvec t j
      + p.txStrength.getD 0.75 * (twoNodeEnv p Nt t
          * Real.exp (-((x j - twoNodeXA p Nx x) ^ 2)
              / (2 * (p.sigma.getD 0.02) ^ 2)))

/-- The delayed, independently scaled Gaussian-profile receiver
contribution at `x_B` added when coupling is enabled. -/
def twoNodeRxField (p : GenParams) (Nx Nt : ℕ) (x tvec : ℕ → ℝ) :
    ℕ → ℕ → ℝ :=
  fun t j =>
    p.rxStrength.getD 0.35
      * (delayedEnvelope Nt
            (twoNodeDelaySteps (p.couplingSpeed.getD (.fin cLight))
              (twoNodeXA p Nx x) (twoNodeXB p Nx x) (tvec 1 - tvec 0))
            (twoNodeEnv p Nt) t
          * Real.exp (-((x j - twoNodeXB p Nx x) ^ 2)
              / (2 * (p.sigma.getD 0.02) ^ 2)))

/-- The `meta` dict of the `two_node` branch (the entries the harness
reads). -/
def twoNodeMeta (p : GenParams) (Nt : ℕ) : FieldMeta :=
  { bitPattern := some (twoNodeBits p), bitDuration := some (twoNodeBd p Nt) }

/-- `generate_em_field(mode, x, t, params)`.  The grid is `x` (length
`Nx`) and `tvec` (length `Nt`); `gauss seed i` is the `i`-th standard
normal draw of `np.random.default_rng(seed)`.  Returns the field as a
function of `(time idx, space idx)` plus the modulation metadata, or the
raised exception. -/
def generateEmField (gauss : ℕ → ℕ → ℝ) (mode : String) (Nx Nt : ℕ)
    (x tvec : ℕ → ℝ) (p : GenParams) :
    Except PyError ((ℕ → ℕ → ℝ) × FieldMeta) :=
  if mode = "smooth" then
    .ok (carrierField p x tvec, {})
  else if mode = "turbulent" then
    .ok (fun t j =>
      carrierField p x tvec t j
        + conv5same Nx (fun jj => 0.4 * gauss (defSeed p) (t * Nx + jj)) j, {})
  else if mode = "modulated" then
    if (p.bitPattern.getD [1, 0, 1, 1, 0] : List ℤ).length = 0 then
      .error .zeroDivision
    else
      let bits := p.bitPattern.getD [1, 0, 1, 1, 0]
      let bd := max 1 (Nt / bits.length)
      let env := envelopeAt (bitsToLevels bits) bd
      .ok (fun t j => defA0 p * (1 + 0.25 * env t)
             * Real.sin (defK p * x j - defOmega p * tvec t),
           { bitPattern := some bits, bitDuration := some bd })
  else if mode = "phase_modulated" then
    if (p.bitPattern.getD [1, 0, 1, 1, 0] : List ℤ).length = 0 then
      .error .zeroDivision
    else
      let bits := p.bitPattern.getD [1, 0, 1, 1, 0]
      let bd := max 1 (Nt / bits.length)
      .ok (fun t j => defA0 p
             * Real.sin (defK p * x j - defOmega p * tvec t + phaseShiftAt bits bd t),
           { bitPattern := some bits, bitDuration := some bd })
  else if mode = "freq_modulated" then
    if (p.bitPattern.getD [1, 0, 1, 1, 0] : List ℤ).length = 0 then
      .error .zeroDivision
    else
      let bits := p.bitPattern.getD [1, 0, 1, 1, 0]
      let bd := max 1 (Nt / bits.length)
      let f0 := p.f0.getD (defOmega p / (2 * Real.pi) * 0.8)
      let f1 := p.f1.getD (defOmega p / (2 * Real.pi) * 1.2)
      .ok (fun t j =>
          defA0 p * Real.sin (defK p * x j - 2 * Real.pi * freqAt bits f0 f1 bd t * tvec t),
           { bitPattern := some bits, bitDuration := some bd })
  else if mode = "two_node" then
    if Nx = 0 then .error .indexError
    else if (twoNodeBits p).length = 0 then .error .zeroDivision
    else if p.enableCoupling.getD true then
      if Nt < 2 then .error .indexError
      else
        .ok (fun t j => twoNodeTxField p Nx Nt x tvec t j
               + twoNodeRxField p Nx Nt x tvec t j,
             twoNodeMeta p Nt)
    else
      .ok (twoNodeTxField p Nx Nt x tvec, twoNodeMeta p Nt)
  else
    .error (.unknownScheme mode)

/-- `np.median` of a nonempty array (sort, take the middle element or the
mean of the two middle elements); `none` models the NaN that
`np.nanmedian` produces on an empty array. -/
def pyMedian (l : List ℝ) : Option ℝ :=
  if l = [] then none
  else
    let s := List.insertionSort (· ≤ ·) l
    let n := l.length
    if n % 2 = 1 then some (s.getD (n / 2) 0)
    else some ((s.getD (n / 2 - 1) 0 + s.getD (n / 2) 0) / 2)

/-- The dict returned by `decode_bits_from_trace`.  `features` entries are
`none` where the source stores NaN; `threshold` is `none` in the (only)
case where the source's threshold is NaN, namely an empty valid set. -/
structure DecodeResult where
  features : List (Option ℝ)
  threshold : Option ℝ
  yPred : List ℤ
  ber : ℝ
  accuracy : ℝ
  errors : ℕ
  nbitsValid : ℕ
  noiseLevel : ℝ

/-- The noise-injection step
`trace + rng.normal(0, noise_level, trace.shape)` (performed only when
`noise_level > 0`) for the stream of `np.random.default_rng(seed)`:
sample `i` of a scale-`σ` normal draw is `σ` times the `i`-th standard
draw of the stream. -/
def addNoise (gauss : ℕ → ℕ → ℝ) (seed : ℕ) (noiseLevel : ℝ)
    (trace : List ℝ) : List ℝ :=
  if 0 < noiseLevel then trace.mapIdx (fun i v => v + noiseLevel * gauss seed i)
  else trace

/-- The per-bit feature extraction loop of `decode_bits_from_trace`:
`feats[i]` is the mean of `trace[i*bit_duration + trim : min((i+1)*
bit_duration, len(trace))]` when that slice is nonempty and NaN
(`none`) otherwise. -/
def decodeFeatures (tr : List ℝ) (bitPattern : List ℤ)
    (bitDuration trim : ℕ) : List (Option ℝ) :=
  (List.range bitPattern.length).map (fun i =>
    let s := i * bitDuration + trim
    let e := min ((i + 1) * bitDuration) tr.length
    if s < e then some (listMean ((tr.drop s).take (e - s))) else none)

/-- The pairing `(feats_v, y_true_v)` of valid (finite) features with
their true bits, in order. -/
def validPairs (feats : List (Option ℝ)) (bitPattern : List ℤ) :
    List (ℝ × ℤ) :=
  (feats.zip bitPattern).filterMap (fun fb => fb.1.map (fun v => (v, fb.2)))

/-- The threshold calibration: the midpoint of the two class means when
both bit values occur among the valid bits, else the median of the valid
features (`none` models the NaN median of an empty valid set). -/
def decodeThreshold (vp : List (ℝ × ℤ)) : Option ℝ :=
  let class0 := (vp.filter (fun vb => vb.2 == 0)).map (fun vb => vb.1)
  let class1 := (vp.filter (fun vb => vb.2 == 1)).map (fun vb => vb.1)
  if class0 ≠ [] ∧ class1 ≠ [] then
    some ((listMean class0 + listMean class1) / 2)
  else pyMedian (vp.map (fun vb => vb.1))

/-- The prediction `feature > threshold` as an integer bit.  A comparison
against a NaN threshold is numpy-`False`, hence the `0` in the (for the
decoder unreachable) `none` branch. -/
def predOf (threshold : Option ℝ) (v : ℝ) : ℤ :=
  match threshold with
  | some th => if th < v then 1 else 0
  | none => 0

/-- The deterministic body of `decode_bits_from_trace`, applied to the
(possibly noise-injected) trace: window-averaged features, threshold
calibration, prediction, and error statistics. -/
def decodeCore (tr : List ℝ) (bitPattern : List ℤ) (bitDuration : ℕ)
    (trim : ℕ) (noiseLevel : ℝ) : DecodeResult :=
  let feats := decodeFeatures tr bitPattern bitDuration trim
  let vp := validPairs feats bitPattern
  let threshold := decodeThreshold vp
  let errors := (vp.filter (fun vb => predOf threshold vb.1 != vb.2)).length
  let nvalid := vp.length
  let ber : ℝ := (errors : ℝ) / ((max 1 nvalid : ℕ) : ℝ)
  { features := feats
    threshold := threshold
    yPred := feats.map (fun f => match f with
      | some v => predOf threshold v
      | none => -1)
    ber := ber
    accuracy := 1 - ber
    errors := errors
    nbitsValid := nvalid
    noiseLevel := noiseLevel }

/-- `decode_bits_from_trace(trace, bit_pattern, bit_duration, trim,
noise_level)`.  The decoder has no seed parameter: its noise stream is
`np.random.default_rng(42)`, hardcoded, modelled as stream `42` of the
oracle. -/
def decodeBitsFromTrace (gauss : ℕ → ℕ → ℝ) (trace : List ℝ)
    (bitPattern : List ℤ) (bitDuration : ℕ) (trim : ℕ) (noiseLevel : ℝ) :
    DecodeResult :=
  decodeCore (addNoise gauss 42 noiseLevel trace) bitPattern bitDuration trim noiseLevel

/-- One row of the BER leaderboard: the fields of the `results` records
that the final ordering reads (`margin = none` models a NaN margin;
the remaining record entries do not influence the ranking). -/
structure LBEntry where
  modulation : String
  functional : String
  ber : ℝ
  margin : Option ℝ

/-- `np.nan_to_num` on a possibly-NaN float: NaN becomes `0`. -/
def nanToNum (m : Option ℝ) : ℝ := m.getD 0

/-- The sort key of `ber_leaderboard`:
`(r["modulation"], r["ber"], -np.nan_to_num(r["margin"]))`, compared
lexicographically as Python compares tuples. -/
def lbKey (e : LBEntry) : String ×ₗ ℝ ×ₗ ℝ :=
  toLex (e.modulation, toLex (e.ber, -(nanToNum e.margin)))

/-- The comparison `sorted` uses: key of the first entry at most key of
the second. -/
def lbKeyLe (a b : LBEntry) : Prop := lbKey a ≤ lbKey b

instance : DecidableRel lbKeyLe :=
  fun a b => inferInstanceAs (Decidable (lbKey a ≤ lbKey b))

instance : IsTotal LBEntry lbKeyLe := ⟨fun a b => le_total (lbKey a) (lbKey b)⟩

instance : IsTrans LBEntry lbKeyLe := ⟨fun _ _ _ hab hbc => le_trans hab hbc⟩

/-- `sorted(results, key=...)`: Python's sort is a stable sort by the
key, so any stable sort — here insertion sort — computes it. -/
def leaderboardSort (l : List LBEntry) : List LBEntry :=
  List.insertionSort lbKeyLe l

/-- The separation-margin computation of `ber_leaderboard` (lines
406-417): mean feature of the 1-class minus mean feature of the 0-class
over valid bits, NaN (`none`) if either class is absent. -/
def marginOf (feats : List (Option ℝ)) (bits : List ℤ) : Option ℝ :=
  let validPairs : List (ℝ × ℤ) :=
    (feats.zip bits).filterMap (fun fb => fb.1.map (fun v => (v, fb.2)))
  let c0 := (validPairs.filter (fun vb => vb.2 == 0)).map (fun vb => vb.1)
  let c1 := (validPairs.filter (fun vb => vb.2 == 1)).map (fun vb => vb.1)
  if c0 ≠ [] ∧ c1 ≠ [] then some (listMean c1 - listMean c0) else none

/-- `x_probe = float(x[int(0.75 * (len(x) - 1))])`. -/
def xProbeDefault (Nx : ℕ) (x : ℕ → ℝ) : ℝ := x ((3 * (Nx - 1)) / 4)

/-- `np.argmin` over `n` values: first index attaining the minimum. -/
def npArgmin (n : ℕ) (g : ℕ → ℝ) : ℕ :=
  (List.range n).foldl (fun best j => if g j < g best then j else best) 0

/-- The functional table built by `make_functionals`: name and feature
extractor for each of the five functionals. -/
def functionalList (em : EMParams) (Nt Nx : ℕ) (dx dt tauEnt gammaEnt : ℝ) :
    List (String × ((ℕ → ℕ → ℝ) → ℕ → ℕ → ℝ)) :=
  [("grad", fun A => gradientBased em Nx A dx dt),
   ("energy", fun A => energyLike em Nt Nx A dx dt),
   ("phase", fun A => phaseWilsonLine em Nt A dt),
   ("hybrid", fun A => hybrid em Nt Nx A dx dt),
   ("entropy", fun A => entropyCoherence Nt A dx dt tauEnt gammaEnt)]

/-- The modulation scenario table hardcoded in `ber_leaderboard`. -/
def defaultScenarios : List (String × String × GenParams) :=
  [("AM", "modulated", { bitPattern := some [1, 0, 1, 1, 0, 1, 0, 0, 1, 1] }),
   ("PM", "phase_modulated", { bitPattern := some [1, 0, 1, 1, 0, 1, 0, 0, 1, 1] }),
   ("FSK", "freq_modulated",
    { bitPattern := some [1, 0, 1, 1, 0, 1, 0, 0, 1, 1], f0 := some 4, f1 := some 6 })]

/-- `ber_leaderboard(x, t, em, dx, dt, x_probe, tau_entropy,
gamma_entropy)`, generalised over the scenario table it iterates (the
source hardcodes `defaultScenarios`).  A scenario whose generation raises
is skipped, as is one whose metadata lacks the bit pattern or bit
duration; each surviving scenario contributes one entry per functional,
and the collected rows are returned sorted by `lbKey`. -/
def berLeaderboard (gauss : ℕ → ℕ → ℝ) (Nx Nt : ℕ) (x tvec : ℕ → ℝ)
    (em : EMParams) (dx dt : ℝ) (xProbe : Option ℝ) (tauEnt gammaEnt : ℝ)
    (scenarios : List (String × String × GenParams)) : List LBEntry :=
  let xp := xProbe.getD (xProbeDefault Nx x)
  let idxProbe := npArgmin Nx (fun j => |x j - xp|)
  let raw := scenarios.flatMap (fun sc =>
    match generateEmField gauss sc.2.1 Nx Nt x tvec sc.2.2 with
    | .error _ => []
    | .ok (A, meta) =>
      match meta.bitPattern, meta.bitDuration with
      | some bits, some bd =>
        let trim := max 1 (bd / 10)
        (functionalList em Nt Nx dx dt tauEnt gammaEnt).map (fun fn =>
          let C := fn.2 A
          let trace := (List.range Nt).map (fun ti => C ti idxProbe)
          let dec := decodeBitsFromTrace gauss trace bits bd trim 0
          { modulation := sc.1
            functional := fn.1
            ber := dec.ber
            margin := marginOf dec.features bits })
      | _, _ => [])
  leaderboardSort raw

/-- Modelled from the spec's words, for comparison with the code:
`n_mem = max(1, round(memory_window / dt))`, with rounding to the nearest
integer. -/
def specMemorySamples (tau dt : ℝ) : ℤ := max 1 (round (tau / dt))

/-- Modelled from the claim's words, for comparison with the code: the
per-bit feature is the mean of the trace over
`[i*bit_duration + trim, (i+1)*bit_duration)` clipped to the trace
length, undefined (`none`, the NaN) when that window is empty. -/
def specBitFeature (trace : List ℝ) (bd trim i : ℕ) : Option ℝ :=
  if i * bd + trim < min ((i + 1) * bd) trace.length then
    some (listMean ((trace.drop (i * bd + trim)).take
      (min ((i + 1) * bd) trace.length - (i * bd + trim))))
  else none

/-- Modelled from the spec's contract
`decode(trace, bit_pattern, bit_duration, trim, noise_level, seed)`:
identical to the source decoder except that the noise stream is the
caller-supplied `seed` instead of the hardcoded `42`. -/
def specDecodeSeeded (gauss : ℕ → ℕ → ℝ) (seed : ℕ) (trace : List ℝ)
    (bitPattern : List ℤ) (bitDuration : ℕ) (trim : ℕ) (noiseLevel : ℝ) :
    DecodeResult :=
  decodeCore (addNoise gauss seed noiseLevel trace) bitPattern bitDuration trim noiseLevel

/-! ## General lemmas about the numeric primitives -/

theorem npClip_nonneg (x : ℝ) : 0 ≤ npClip x 0 1 :=
  le_min zero_le_one (le_max_left 0 x)

theorem npClip_le_one (x : ℝ) : npClip x 0 1 ≤ 1 :=
  min_le_left 1 _

theorem npClip_exp_neg (y : ℝ) (hy : 0 ≤ y) :
    npClip (Real.exp (-y)) 0 1 = Real.exp (-y) := by
  unfold npClip
  rw [max_eq_right (Real.exp_nonneg _),
    min_eq_right (Real.exp_le_one_iff.mpr (by linarith))]

theorem windowList_congr {α : Type} (f g : ℕ → ℕ → α) (t0 t j : ℕ)
    (h0 : t0 ≤ t) (h : ∀ s, s ≤ t → f s j = g s j) :
    windowList f t0 t j = windowList g t0 t j := by
  unfold windowList
  refine List.map_congr_left ?_
  intro i hi
  rw [List.mem_range] at hi
  exact h (t0 + i) (by omega)

/-! ## C2: all functional outputs lie in the unit interval -/

/-- C2: for every functional in the library (gradient, energy-like,
phase, hybrid, entropy baseline) and every input field, every sample of
the returned coherence field lies in the closed interval `[0, 1]`. -/
theorem claim_C2_output_bounds (p : EMParams) (Nt Nx : ℕ) (A : ℕ → ℕ → ℝ)
    (dx dt tau gamma : ℝ) (t j : ℕ) :
    (0 ≤ gradientBased p Nx A dx dt t j ∧ gradientBased p Nx A dx dt t j ≤ 1) ∧
    (0 ≤ energyLike p Nt Nx A dx dt t j ∧ energyLike p Nt Nx A dx dt t j ≤ 1) ∧
    (0 ≤ phaseWilsonLine p Nt A dt t j ∧ phaseWilsonLine p Nt A dt t j ≤ 1) ∧
    (0 ≤ hybrid p Nt Nx A dx dt t j ∧ hybrid p Nt Nx A dx dt t j ≤ 1) ∧
    (0 ≤ entropyCoherence Nt A dx dt tau gamma t j ∧
      entropyCoherence Nt A dx dt tau gamma t j ≤ 1) := by
  refine ⟨⟨?_, ?_⟩, ⟨?_, ?_⟩, ⟨?_, ?_⟩, ⟨?_, ?_⟩, ⟨?_, ?_⟩⟩
  · simp only [gradientBased]; exact npClip_nonneg _
  · simp only [gradientBased]; exact npClip_le_one _
  · simp only [energyLike]; exact npClip_nonneg _
  · simp only [energyLike]; exact npClip_le_one _
  · simp only [phaseWilsonLine]; exact npClip_nonneg _
  · simp only [phaseWilsonLine]; exact npClip_le_one _
  · simp only [hybrid]; exact Real.sqrt_nonneg _
  · simp only [hybrid]; exact Real.sqrt_le_one.mpr (npClip_le_one _)
  · simp only [entropyCoherence]; exact npClip_nonneg _
  · simp only [entropyCoherence]; exact npClip_le_one _

/-! ## C1: strict causality -/

/-- C1 (amended): the gradient functional is strictly causal — two fields
that agree on all samples at time indices `≤ t` produce identical
gradient-functional outputs at time index `t`. -/
theorem claim_C1_gradient_causal (p : EMParams) (Nx : ℕ) (dx dt : ℝ)
    (F G : ℕ → ℕ → ℝ) (t : ℕ) (hFG : ∀ s, s ≤ t → ∀ j, F s j = G s j)
    (j : ℕ) :
    gradientBased p Nx F dx dt t j = gradientBased p Nx G dx dt t j := by
  simp only [gradientBased]
  have hw : windowList (fun s i => (npGradSpace Nx dx F s i) ^ 2)
        (t - (memorySamples p.tau dt).toNat) t j
      = windowList (fun s i => (npGradSpace Nx dx G s i) ^ 2)
        (t - (memorySamples p.tau dt).toNat) t j := by
    refine windowList_congr _ _ _ _ _ (Nat.sub_le t _) ?_
    intro s hs
    have hrow : F s = G s := funext (hFG s hs)
    simp only [npGradSpace, hrow]
  rw [hw]

/-- Witness for `claim_C1_gradient_causal` at a concrete pair of fields
that agree up to time index 1 and differ at time index 2. -/
theorem claim_C1_gradient_causal_witness :
    gradientBased ⟨2, 1, 1⟩ 2 (fun _ _ => 0) 1 1 1 0
      = gradientBased ⟨2, 1, 1⟩ 2 (fun s _ => if 2 ≤ s then 5 else 0) 1 1 1 0 :=
  claim_C1_gradient_causal ⟨2, 1, 1⟩ 2 1 1 _ _ 1
    (fun s hs _ => by rw [if_neg (by omega)]) 0

theorem memorySamples_one_one : memorySamples 1 1 = 1 := by
  unfold memorySamples pyTrunc
  rw [show ((1 : ℝ) / 1) = 1 by norm_num, if_pos (by norm_num : (0 : ℝ) ≤ 1)]
  rw [Int.floor_one]
  exact max_self 1

theorem cex_energy_zero_field :
    energyLike ⟨2, 1, 1⟩ 3 2 (fun _ _ => 0) 1 1 1 0 = 1 := by
  simp only [energyLike, memorySamples_one_one, Int.toNat_one]
  norm_num [windowList, List.range_succ, npGradTime, npGradSpace,
    scipySimpson, npClip]

theorem cex_energy_bump_field :
    energyLike ⟨2, 1, 1⟩ 3 2 (fun s _ => if s = 2 then 1 else 0) 1 1 1 0
      = Real.exp (-(1 / 8)) := by
  simp only [energyLike, memorySamples_one_one, Int.toNat_one]
  have hlist : windowList
      (fun s i => (npGradTime 3 1 (fun s _ => if s = 2 then (1 : ℝ) else 0) s i) ^ 2
        + (npGradSpace 2 1 (fun s _ => if s = 2 then (1 : ℝ) else 0) s i) ^ 2)
      (1 - 1) 1 0 = [0, 1 / 4] := by
    norm_num [windowList, List.range_succ, npGradTime, npGradSpace]
  rw [hlist]
  rw [show scipySimpson (1 : ℝ) [0, 1 / 4] = 1 / 8 by
    simp [scipySimpson]; norm_num]
  rw [show (-(1 : ℝ) * (1 / 8)) = -(1 / 8) by norm_num]
  exact npClip_exp_neg _ (by norm_num)

/-- C1 counterexample: the claim fails for the energy-like functional.
The two fields below agree on all samples at time indices `≤ 1` and
differ only at time index 2, yet the energy-like outputs at time index 1
differ, because the central-difference time derivative at index 1 reads
the sample at index 2. -/
theorem claim_C1_counterexample :
    (∀ s, s ≤ 1 → ∀ j, (fun _ _ => (0 : ℝ)) s j
        = (fun s (_ : ℕ) => if s = 2 then (1 : ℝ) else 0) s j) ∧
    energyLike ⟨2, 1, 1⟩ 3 2 (fun _ _ => 0) 1 1 1 0
      ≠ energyLike ⟨2, 1, 1⟩ 3 2 (fun s _ => if s = 2 then 1 else 0) 1 1 1 0 := by
  constructor
  · intro s hs j
    simp only
    rw [if_neg (by omega)]
  · rw [cex_energy_zero_field, cex_energy_bump_field]
    intro h
    have h1 : Real.exp (-(1 / 8)) < 1 := Real.exp_lt_one_iff.mpr (by norm_num)
    rw [← h] at h1
    exact lt_irrefl 1 h1

/-! ## C3: the memory-window sample count -/

/-- C3 counterexample: at `tau = 19`, `dt = 10` the source computes
`max(1, int(1.9)) = 1` while the claimed formula
`max(1, round(1.9))` gives `2`. -/
theorem claim_C3_counterexample :
    memorySamples 19 10 = 1 ∧ specMemorySamples 19 10 = 2 ∧
    memorySamples 19 10 ≠ specMemorySamples 19 10 := by
  have hfloor : ⌊(19 : ℝ) / 10⌋ = 1 := by
    rw [Int.floor_eq_iff] <;> norm_num
  have hround : round ((19 : ℝ) / 10) = 2 := by
    rw [round_eq]
    rw [show (19 : ℝ) / 10 + 1 / 2 = 12 / 5 by norm_num]
    rw [Int.floor_eq_iff] <;> norm_num
  refine ⟨?_, ?_, ?_⟩
  · unfold memorySamples pyTrunc
    rw [if_pos (by norm_num : (0 : ℝ) ≤ 19 / 10), hfloor]
    norm_num
  · unfold specMemorySamples
    rw [hround]
    norm_num
  · unfold memorySamples specMemorySamples pyTrunc
    rw [if_pos (by norm_num : (0 : ℝ) ≤ 19 / 10), hfloor, hround]
    norm_num

/-- C3 (amended): `n_mem = max(1, int(tau / dt))` — truncation, not
rounding; it is at least 1, the natural-subtraction window start realises
`max(0, t - n_mem)`, and the gradient and energy-like functionals apply
the integration rule to the integrand over exactly the causal window
`[max(0, t - n_mem), t]`. -/
theorem claim_C3_amended (tau dt : ℝ) (htau : 0 < tau) (hdt : 0 < dt) :
    memorySamples tau dt = max 1 ⌊tau / dt⌋ ∧
    1 ≤ memorySamples tau dt ∧
    (∀ t : ℕ, t - (memorySamples tau dt).toNat
        = (max 0 ((t : ℤ) - memorySamples tau dt)).toNat) ∧
    (∀ (p : EMParams) (Nx : ℕ) (A : ℕ → ℕ → ℝ) (dx : ℝ) (t j : ℕ),
      p.tau = tau →
      gradientBased p Nx A dx dt t j
        = npClip (Real.exp (-p.alpha * scipySimpson dt
            (windowList (fun s i => (npGradSpace Nx dx A s i) ^ 2)
              (t - (memorySamples tau dt).toNat) t j))) 0 1) ∧
    (∀ (p : EMParams) (Nt Nx : ℕ) (A : ℕ → ℕ → ℝ) (dx : ℝ) (t j : ℕ),
      p.tau = tau →
      energyLike p Nt Nx A dx dt t j
        = npClip (Real.exp (-p.beta * scipySimpson dt
            (windowList (fun s i => (npGradTime Nt dt A s i) ^ 2
                + (npGradSpace Nx dx A s i) ^ 2)
              (t - (memorySamples tau dt).toNat) t j))) 0 1) := by
  refine ⟨?_, le_max_left 1 _, ?_, ?_, ?_⟩
  · unfold memorySamples pyTrunc
    rw [if_pos (div_nonneg htau.le hdt.le)]
  · intro t
    have hm : 1 ≤ memorySamples tau dt := by
      unfold memorySamples
      exact le_max_left _ _
    omega
  · intro p Nx A dx t j hp
    simp only [gradientBased, hp]
  · intro p Nt Nx A dx t j hp
    simp only [energyLike, hp]

/-- Witness for `claim_C3_amended` at `tau = 1`, `dt = 2`. -/
theorem claim_C3_amended_witness :
    (0 : ℝ) < 1 ∧ (0 : ℝ) < 2 ∧ memorySamples 1 2 = max 1 ⌊(1 : ℝ) / 2⌋ :=
  ⟨by norm_num, by norm_num,
    (claim_C3_amended 1 2 (by norm_num) (by norm_num)).1⟩

/-! ## C4: the two-node coupling delay -/

theorem pyRound_nonneg (x : ℝ) (hx : 0 ≤ x) : 0 ≤ pyRound x := by
  unfold pyRound
  have h0 : (0 : ℤ) ≤ ⌊x⌋ := Int.floor_nonneg.mpr hx
  split_ifs <;> omega

theorem pyRound_zero : pyRound 0 = 0 := by
  unfold pyRound
  norm_num

theorem pyRound_dist (x : ℝ) : |((pyRound x : ℤ) : ℝ) - x| ≤ 1 / 2 := by
  unfold pyRound
  have hf : ((⌊x⌋ : ℤ) : ℝ) ≤ x := Int.floor_le x
  have hf1 : x < ⌊x⌋ + 1 := Int.lt_floor_add_one x
  split_ifs with h1 h2 h3
  · rw [abs_le]; constructor <;> linarith
  · rw [abs_le]; push_cast; constructor <;> linarith
  · rw [abs_le]
    have heq : x - ⌊x⌋ = 1 / 2 := by linarith
    constructor <;> linarith
  · rw [abs_le]
    have heq : x - ⌊x⌋ = 1 / 2 := by linarith
    push_cast
    constructor <;> linarith

/-- C4: with finite coupling speed `c > 0` the two-node receiver delay in
samples is `round(|x_B - x_A| / c / dt)` (Python's round, half to even),
it is non-negative and within half a sample of the exact delay; with
infinite coupling speed it is exactly 0; and the delayed envelope is
zero-filled on the first `delay` samples while later samples are the
envelope shifted with no wraparound. -/
theorem claim_C4_two_node_delay (c xA xB dtStep : ℝ) (hc : 0 < c)
    (hdt : 0 < dtStep) (Nt : ℕ) (env : ℕ → ℝ) :
    twoNodeDelaySteps (.fin c) xA xB dtStep
        = pyRound (|xB - xA| / c / dtStep) ∧
    0 ≤ twoNodeDelaySteps (.fin c) xA xB dtStep ∧
    |((twoNodeDelaySteps (.fin c) xA xB dtStep : ℤ) : ℝ)
        - |xB - xA| / c / dtStep| ≤ 1 / 2 ∧
    twoNodeDelaySteps .inf xA xB dtStep = 0 ∧
    (∀ s : ℕ, (s : ℤ) < twoNodeDelaySteps (.fin c) xA xB dtStep →
      delayedEnvelope Nt (twoNodeDelaySteps (.fin c) xA xB dtStep) env s = 0) ∧
    (∀ s : ℕ, twoNodeDelaySteps (.fin c) xA xB dtStep ≤ (s : ℤ) → s < Nt →
      delayedEnvelope Nt (twoNodeDelaySteps (.fin c) xA xB dtStep) env s
        = env (s - (twoNodeDelaySteps (.fin c) xA xB dtStep).toNat)) := by
  have hq : 0 ≤ |xB - xA| / c / dtStep :=
    div_nonneg (div_nonneg (abs_nonneg _) hc.le) hdt.le
  have hd0 : 0 ≤ twoNodeDelaySteps (.fin c) xA xB dtStep :=
    pyRound_nonneg _ hq
  refine ⟨rfl, hd0, pyRound_dist _, ?_, ?_, ?_⟩
  · show pyRound ((0 : ℝ) / dtStep) = 0
    rw [zero_div]
    exact pyRound_zero
  · intro s hs
    unfold delayedEnvelope
    rw [if_pos hs]
  · intro s h1 h2
    unfold delayedEnvelope
    rw [if_neg (not_lt.mpr h1)]
    have hmod : ((s : ℤ) - twoNodeDelaySteps (.fin c) xA xB dtStep) % (Nt : ℤ)
        = (s : ℤ) - twoNodeDelaySteps (.fin c) xA xB dtStep := by
      refine Int.emod_eq_of_lt (by omega) (by omega)
    rw [hmod]
    congr 1
    omega

/-- Witness for `claim_C4_two_node_delay` at `c = 2`, `x_A = 0`,
`x_B = 3`, `dt = 1`. -/
theorem claim_C4_two_node_delay_witness :
    (0 : ℝ) < 2 ∧ (0 : ℝ) < 1 ∧
    0 ≤ twoNodeDelaySteps (.fin 2) 0 3 1 ∧
    twoNodeDelaySteps .inf 0 3 1 = 0 :=
  ⟨by norm_num, by norm_num,
    (claim_C4_two_node_delay 2 0 3 1 (by norm_num) (by norm_num) 0
      (fun _ => 0)).2.1,
    (claim_C4_two_node_delay 2 0 3 1 (by norm_num) (by norm_num) 0
      (fun _ => 0)).2.2.2.1⟩

/-! ## C5 and C10: the decoder -/

theorem addNoise_zero (g : ℕ → ℕ → ℝ) (seed : ℕ) (trace : List ℝ) :
    addNoise g seed 0 trace = trace := by
  unfold addNoise
  rw [if_neg (lt_irrefl 0)]

theorem decodeFeatures_length (tr : List ℝ) (bits : List ℤ) (bd trim : ℕ) :
    (decodeFeatures tr bits bd trim).length = bits.length := by
  unfold decodeFeatures
  simp

theorem decodeFeatures_getD (tr : List ℝ) (bits : List ℤ) (bd trim i : ℕ)
    (hi : i < bits.length) :
    (decodeFeatures tr bits bd trim).getD i none = specBitFeature tr bd trim i := by
  unfold decodeFeatures specBitFeature
  rw [List.getD_eq_getElem _ _ (by simpa using hi)]
  rw [List.getElem_map, List.getElem_range]

theorem length_filterMap_zip {α β : Type} (fs : List (Option α)) (bs : List β)
    (h : fs.length = bs.length) :
    ((fs.zip bs).filterMap (fun fb => fb.1.map (fun v => (v, fb.2)))).length
      = (fs.filterMap id).length := by
  induction fs generalizing bs with
  | nil => simp
  | cons hd tl ih =>
    cases bs with
    | nil => simp at h
    | cons b bs2 =>
      cases hd with
      | none =>
        simp only [List.zip_cons_cons, List.filterMap_cons, Option.map_none,
          List.filterMap_cons_none, id]
        exact ih bs2 (by simpa using h)
      | some v =>
        simp only [List.zip_cons_cons, List.filterMap_cons, Option.map_some, id]
        simpa using ih bs2 (by simpa using h)

theorem decodeCore_features (tr : List ℝ) (bits : List ℤ) (bd trim : ℕ)
    (nl : ℝ) :
    (decodeCore tr bits bd trim nl).features = decodeFeatures tr bits bd trim := rfl

theorem decodeCore_nbitsValid (tr : List ℝ) (bits : List ℤ) (bd trim : ℕ)
    (nl : ℝ) :
    (decodeCore tr bits bd trim nl).nbitsValid
      = (validPairs (decodeFeatures tr bits bd trim) bits).length := rfl

theorem decodeCore_errors (tr : List ℝ) (bits : List ℤ) (bd trim : ℕ)
    (nl : ℝ) :
    (decodeCore tr bits bd trim nl).errors
      = ((validPairs (decodeFeatures tr bits bd trim) bits).filter
          (fun vb => predOf (decodeThreshold
            (validPairs (decodeFeatures tr bits bd trim) bits)) vb.1
              != vb.2)).length := rfl

theorem decodeCore_ber (tr : List ℝ) (bits : List ℤ) (bd trim : ℕ)
    (nl : ℝ) :
    (decodeCore tr bits bd trim nl).ber
      = ((decodeCore tr bits bd trim nl).errors : ℝ)
          / (((max 1 (decodeCore tr bits bd trim nl).nbitsValid : ℕ)) : ℝ) := rfl

theorem decodeCore_yPred (tr : List ℝ) (bits : List ℤ) (bd trim : ℕ)
    (nl : ℝ) :
    (decodeCore tr bits bd trim nl).yPred
      = (decodeFeatures tr bits bd trim).map (fun f => match f with
          | some v => predOf (decodeThreshold
              (validPairs (decodeFeatures tr bits bd trim) bits)) v
          | none => -1) := rfl

theorem decodeBitsFromTrace_zero_noise (gauss : ℕ → ℕ → ℝ) (trace : List ℝ)
    (bits : List ℤ) (bd trim : ℕ) :
    decodeBitsFromTrace gauss trace bits bd trim 0
      = decodeCore trace bits bd trim 0 := by
  unfold decodeBitsFromTrace
  rw [addNoise_zero]

/-- C5: with zero decode noise, the per-bit features are the means of the
trace over `[i*bit_duration + trim, (i+1)*bit_duration)` clipped to the
trace length (NaN when that window is empty); the valid-bit count is the
number of defined features; the error count never exceeds it; the
bit-error rate is `errors / nbits_valid` when at least one bit is valid
and `0` by convention when none is. -/
theorem claim_C5_decoder (gauss : ℕ → ℕ → ℝ) (trace : List ℝ)
    (bits : List ℤ) (bd trim : ℕ) (hbd : 1 ≤ bd) :
    (decodeBitsFromTrace gauss trace bits bd trim 0).features.length
        = bits.length ∧
    (∀ i, i < bits.length →
      (decodeBitsFromTrace gauss trace bits bd trim 0).features.getD i none
        = specBitFeature trace bd trim i) ∧
    (decodeBitsFromTrace gauss trace bits bd trim 0).nbitsValid
      = ((decodeBitsFromTrace gauss trace bits bd trim 0).features.filterMap
          id).length ∧
    (decodeBitsFromTrace gauss trace bits bd trim 0).errors
      ≤ (decodeBitsFromTrace gauss trace bits bd trim 0).nbitsValid ∧
    ((decodeBitsFromTrace gauss trace bits bd trim 0).nbitsValid ≠ 0 →
      (decodeBitsFromTrace gauss trace bits bd trim 0).ber
        = ((decodeBitsFromTrace gauss trace bits bd trim 0).errors : ℝ)
            / ((decodeBitsFromTrace gauss trace bits bd trim 0).nbitsValid : ℝ)) ∧
    ((decodeBitsFromTrace gauss trace bits bd trim 0).nbitsValid = 0 →
      (decodeBitsFromTrace gauss trace bits bd trim 0).errors = 0 ∧
      (decodeBitsFromTrace gauss trace bits bd trim 0).ber = 0) := by
  rw [decodeBitsFromTrace_zero_noise]
  refine ⟨?_, ?_, ?_, ?_, ?_, ?_⟩
  · rw [decodeCore_features, decodeFeatures_length]
  · intro i hi
    rw [decodeCore_features]
    exact decodeFeatures_getD trace bits bd trim i hi
  · rw [decodeCore_nbitsValid, decodeCore_features]
    unfold validPairs
    exact length_filterMap_zip _ _ (decodeFeatures_length trace bits bd trim)
  · rw [decodeCore_errors, decodeCore_nbitsValid]
    exact List.length_filter_le _ _
  · intro hne
    rw [decodeCore_ber]
    rw [max_eq_right (by omega : 1 ≤ (decodeCore trace bits bd trim 0).nbitsValid)]
  · intro hz
    have hvp : validPairs (decodeFeatures trace bits bd trim) bits = [] := by
      rw [decodeCore_nbitsValid] at hz
      exact List.length_eq_zero.mp hz
    have herr : (decodeCore trace bits bd trim 0).errors = 0 := by
      rw [decodeCore_errors, hvp]
      rfl
    refine ⟨herr, ?_⟩
    rw [decodeCore_ber, herr, hz]
    norm_num

/-- Witness for `claim_C5_decoder` on the trace `[1, 0]` with bit pattern
`[1, 0]` and unit bit duration. -/
theorem claim_C5_decoder_witness :
    1 ≤ 1 ∧
    (decodeBitsFromTrace (fun _ _ => 0) [1, 0] [1, 0] 1 0 0).features.length = 2 :=
  ⟨le_refl 1,
    (claim_C5_decoder (fun _ _ => 0) [1, 0] [1, 0] 1 0 (le_refl 1)).1⟩

/-- C10: the predicted-bit array has the length of the bit pattern; a
valid bit position decodes to `0` or `1`, an excluded position carries
the sentinel `-1`. -/
theorem claim_C10_ypred (gauss : ℕ → ℕ → ℝ) (trace : List ℝ) (bits : List ℤ)
    (bd trim : ℕ) (nl : ℝ) :
    (decodeBitsFromTrace gauss trace bits bd trim nl).yPred.length
        = bits.length ∧
    ∀ i, i < bits.length →
      ((decodeBitsFromTrace gauss trace bits bd trim nl).features.getD i none
          = none →
        (decodeBitsFromTrace gauss trace bits bd trim nl).yPred.getD i 0 = -1) ∧
      (∀ f, (decodeBitsFromTrace gauss trace bits bd trim nl).features.getD i none
          = some f →
        (decodeBitsFromTrace gauss trace bits bd trim nl).yPred.getD i 0 = 0 ∨
        (decodeBitsFromTrace gauss trace bits bd trim nl).yPred.getD i 0 = 1) := by
  unfold decodeBitsFromTrace
  constructor
  · rw [decodeCore_yPred]
    rw [List.length_map, decodeFeatures_length]
  · intro i hi
    have hflen : i < (decodeFeatures (addNoise gauss 42 nl trace) bits bd trim).length := by
      rw [decodeFeatures_length]
      exact hi
    have hyeq : (decodeCore (addNoise gauss 42 nl trace) bits bd trim nl).yPred.getD i 0
        = (match (decodeFeatures (addNoise gauss 42 nl trace) bits bd trim)[i] with
           | some v => predOf (decodeThreshold
               (validPairs (decodeFeatures (addNoise gauss 42 nl trace) bits bd trim) bits)) v
           | none => -1) := by
      rw [decodeCore_yPred, List.getD_eq_getElem _ _ (by simpa using hflen),
        List.getElem_map]
    have hfeq : (decodeCore (addNoise gauss 42 nl trace) bits bd trim nl).features.getD i none
        = (decodeFeatures (addNoise gauss 42 nl trace) bits bd trim)[i] := by
      rw [decodeCore_features, List.getD_eq_getElem _ _ hflen]
    constructor
    · intro hnone
      rw [hfeq] at hnone
      rw [hyeq, hnone]
    · intro f hsome
      rw [hfeq] at hsome
      rw [hyeq, hsome]
      unfold predOf
      cases hth : decodeThreshold
          (validPairs (decodeFeatures (addNoise gauss 42 nl trace) bits bd trim) bits) with
      | none => left; rfl
      | some th =>
        by_cases hlt : th < f
        · right
          show (if th < f then (1 : ℤ) else 0) = 1
          rw [if_pos hlt]
        · left
          show (if th < f then (1 : ℤ) else 0) = 0
          rw [if_neg hlt]

/-- Witness for `claim_C10_ypred` on the trace `[2, 3]` with bit pattern
`[0, 1]`: position 0 is valid and decodes to a bit. -/
theorem claim_C10_ypred_witness :
    (0 < 2) ∧
    ((decodeBitsFromTrace (fun _ _ => 0) [2, 3] [0, 1] 1 0 0).yPred.getD 0 0 = 0 ∨
     (decodeBitsFromTrace (fun _ _ => 0) [2, 3] [0, 1] 1 0 0).yPred.getD 0 0 = 1) := by
  have hfeat : (decodeBitsFromTrace (fun _ _ => 0) [2, 3] [0, 1] 1 0 0).features.getD 0 none
      = some 2 := by
    rw [decodeBitsFromTrace_zero_noise, decodeCore_features]
    unfold decodeFeatures
    norm_num [List.range_succ, listMean]
  exact ⟨by norm_num,
    ((claim_C10_ypred (fun _ _ => 0) [2, 3] [0, 1] 1 0 0).2 0 (by norm_num)).2 2 hfeat⟩

/-! ## C6: the leaderboard ordering -/

/-- C6 counterexample: two entries of the same modulation group with
equal bit-error rate, one carrying a NaN margin and one carrying the
defined margin `-1/2`.  `np.nan_to_num` maps the NaN margin to `0`, whose
negation `0` sorts *before* the defined entry's key `1/2`: the sorted
leaderboard places the NaN-margin entry first in its tie group, not
last. -/
theorem claim_C6_counterexample :
    leaderboardSort
        [⟨"AM", "grad", 0, some (-(1 / 2))⟩, ⟨"AM", "phase", 0, none⟩]
      = [⟨"AM", "phase", 0, none⟩, ⟨"AM", "grad", 0, some (-(1 / 2))⟩] := by
  have hno : ¬ lbKeyLe ⟨"AM", "grad", 0, some (-(1 / 2))⟩
      ⟨"AM", "phase", 0, none⟩ := by
    unfold lbKeyLe lbKey nanToNum
    intro hcon
    rw [Prod.Lex.le_iff] at hcon
    rcases hcon with hlt | ⟨_, h2⟩
    · have hAM : "AM" < "AM" := hlt
      exact lt_irrefl _ hAM
    · rw [Prod.Lex.le_iff] at h2
      rcases h2 with hlt2 | ⟨_, h3⟩
      · have h0 : (0 : ℝ) < 0 := hlt2
        exact lt_irrefl _ h0
      · have h12 : -(-(1 / 2) : ℝ) ≤ -0 := h3
        norm_num at h12
  unfold leaderboardSort
  simp only [List.insertionSort, List.orderedInsert, if_neg hno]

/-- C6 (amended): the leaderboard output is a permutation of the results
sorted by the lexicographic key (modulation label, bit-error rate,
negated margin with NaN coerced to 0): grouped by modulation, ascending
in BER, ties broken by descending margin, with an undefined margin
participating as if it were 0 (after positive margins, before negative
ones) rather than sorting last. -/
theorem claim_C6_amended (l : List LBEntry) :
    List.Sorted lbKeyLe (leaderboardSort l) ∧ List.Perm (leaderboardSort l) l :=
  ⟨List.sorted_insertionSort lbKeyLe l, List.perm_insertionSort lbKeyLe l⟩

/-! ## C7: unknown schemes and the harness skip behaviour -/

/-- C7: an unrecognised scheme name makes `generate_em_field` fail with
the unknown-scheme error, and the leaderboard harness skips such a
scenario (its output equals the output on the remaining scenarios)
instead of aborting; every supported scheme name succeeds under the data
model's invariants (nonempty grid, at least two time samples, nonempty
bit pattern). -/
theorem claim_C7_unknown_scheme (gauss : ℕ → ℕ → ℝ) (Nx Nt : ℕ)
    (x tvec : ℕ → ℝ) (p : GenParams) (mode : String) :
    (mode ∉ supportedModes →
      generateEmField gauss mode Nx Nt x tvec p
          = .error (.unknownScheme mode) ∧
      (∀ (em : EMParams) (dx dt : ℝ) (xp : Option ℝ) (tauE gammaE : ℝ)
        (lbl : String) (rest : List (String × String × GenParams)),
        berLeaderboard gauss Nx Nt x tvec em dx dt xp tauE gammaE
            ((lbl, mode, p) :: rest)
          = berLeaderboard gauss Nx Nt x tvec em dx dt xp tauE gammaE rest)) ∧
    (mode ∈ supportedModes → 1 ≤ Nx → 2 ≤ Nt → p.bitPattern ≠ some [] →
      ∃ r, generateEmField gauss mode Nx Nt x tvec p = .ok r) := by
  constructor
  · intro hmode
    simp only [supportedModes, List.mem_cons, List.not_mem_nil, or_false,
      not_or] at hmode
    obtain ⟨h1, h2, h3, h4, h5, h6⟩ := hmode
    have hgen : generateEmField gauss mode Nx Nt x tvec p
        = .error (.unknownScheme mode) := by
      simp only [generateEmField]
      rw [if_neg h1, if_neg h2, if_neg h3, if_neg h4, if_neg h5, if_neg h6]
    refine ⟨hgen, ?_⟩
    intro em dx dt xp tauE gammaE lbl rest
    unfold berLeaderboard
    simp only [List.flatMap_cons, hgen, List.nil_append]
  · intro hmem hNx hNt hbits
    have hlen : ∀ d : List ℤ, d ≠ [] → ¬ ((p.bitPattern.getD d).length = 0) := by
      intro d hd h0
      cases hbp : p.bitPattern with
      | none =>
        rw [hbp] at h0
        simp only [Option.getD_none] at h0
        exact hd (List.length_eq_zero.mp h0)
      | some bs =>
        rw [hbp] at h0
        simp only [Option.getD_some] at h0
        exact hbits (by rw [hbp, List.length_eq_zero.mp h0])
    have hlenD : ¬ ((p.bitPattern.getD [1, 0, 1, 1, 0] : List ℤ).length = 0) :=
      hlen _ (by simp)
    have hlenT : ¬ ((twoNodeBits p).length = 0) :=
      hlen [1, 0, 1, 1, 0, 1, 0, 0, 1, 1] (by simp)
    simp only [supportedModes, List.mem_cons, List.not_mem_nil, or_false] at hmem
    rcases hmem with h | h | h | h | h | h <;> subst h
    · exact ⟨_, rfl⟩
    · exact ⟨_, rfl⟩
    · unfold generateEmField
      simp only [if_neg hlenD]
      exact ⟨_, rfl⟩
    · unfold generateEmField
      simp only [if_neg hlenD]
      exact ⟨_, rfl⟩
    · unfold generateEmField
      simp only [if_neg hlenD]
      exact ⟨_, rfl⟩
    · unfold generateEmField
      rw [if_neg (by omega : ¬ Nx = 0), if_neg hlenT]
      cases hcpl : p.enableCoupling.getD true with
      | true =>
        rw [if_pos rfl, if_neg (by omega : ¬ Nt < 2)]
        exact ⟨_, rfl⟩
      | false =>
        rw [if_neg (by simp)]
        exact ⟨_, rfl⟩

/-- Witness for `claim_C7_unknown_scheme`: the scheme name `"bogus"`
fails with the unknown-scheme error, while `"smooth"` succeeds on a
2-sample-by-1-sample grid with default parameters. -/
theorem claim_C7_unknown_scheme_witness :
    generateEmField (fun _ _ => 0) "bogus" 1 2 (fun _ => 0) (fun n => (n : ℝ)) {}
        = .error (.unknownScheme "bogus") ∧
    ∃ r, generateEmField (fun _ _ => 0) "smooth" 1 2 (fun _ => 0)
        (fun n => (n : ℝ)) {} = .ok r :=
  ⟨((claim_C7_unknown_scheme (fun _ _ => 0) 1 2 (fun _ => 0) (fun n => (n : ℝ))
      {} "bogus").1 (by decide)).1,
    (claim_C7_unknown_scheme (fun _ _ => 0) 1 2 (fun _ => 0) (fun n => (n : ℝ))
      {} "smooth").2 (by decide) (by norm_num) (by norm_num) (by simp)⟩

/-! ## C9: noise seeding -/

/-- C9 counterexample: the decoder does not accept a caller-supplied
seed — its noise stream is hardcoded to 42.  Against the spec's seeded
contract (`specDecodeSeeded`, here invoked with seed 7) the decoder
produces different features on the same inputs, under an oracle whose
draws reveal the stream they came from. -/
theorem claim_C9_counterexample :
    (decodeBitsFromTrace (fun s _ => (s : ℝ)) [0] [1] 1 0 1).features
      ≠ (specDecodeSeeded (fun s _ => (s : ℝ)) 7 [0] [1] 1 0 1).features := by
  have hfeat : ∀ sd : ℕ,
      decodeFeatures (addNoise (fun s _ => (s : ℝ)) sd 1 [0]) [1] 1 0
        = [some (sd : ℝ)] := by
    intro sd
    unfold addNoise decodeFeatures
    rw [if_pos (by norm_num : (0 : ℝ) < 1)]
    norm_num [listMean, List.range_succ]
  intro h
  unfold decodeBitsFromTrace specDecodeSeeded at h
  rw [decodeCore_features, decodeCore_features, hfeat 42, hfeat 7] at h
  simp at h

/-- C9 (amended): the decoder takes no seed: its Gaussian noise is drawn
from the fixed internal stream 42, so decoding depends only on that
stream (it is deterministic and unaffected by the caller-controlled
generation seed), while field generation depends only on the stream of
its own `seed` parameter. -/
theorem claim_C9_amended (g gHat : ℕ → ℕ → ℝ) :
    (∀ (trace : List ℝ) (bits : List ℤ) (bd trim : ℕ) (nl : ℝ),
      (∀ i, g 42 i = gHat 42 i) →
      decodeBitsFromTrace g trace bits bd trim nl
        = decodeBitsFromTrace gHat trace bits bd trim nl) ∧
    (∀ (mode : String) (Nx Nt : ℕ) (x tvec : ℕ → ℝ) (p : GenParams),
      (∀ i, g (defSeed p) i = gHat (defSeed p) i) →
      generateEmField g mode Nx Nt x tvec p
        = generateEmField gHat mode Nx Nt x tvec p) := by
  constructor
  · intro trace bits bd trim nl h42
    have hN : addNoise g 42 nl trace = addNoise gHat 42 nl trace := by
      unfold addNoise
      split_ifs with hnl
      · congr 1
        funext i v
        rw [h42 i]
      · rfl
    unfold decodeBitsFromTrace
    rw [hN]
  · intro mode Nx Nt x tvec p hseed
    have hA : (fun t j => carrierField p x tvec t j
          + conv5same Nx (fun jj => 0.4 * g (defSeed p) (t * Nx + jj)) j)
        = (fun t j => carrierField p x tvec t j
          + conv5same Nx (fun jj => 0.4 * gHat (defSeed p) (t * Nx + jj)) j) := by
      funext t j
      congr 1
      unfold conv5same
      congr 1
      congr 1
      refine List.map_congr_left ?_
      intro m _
      split_ifs with hcond
      · show 0.4 * g (defSeed p) (t * Nx + (j + m - 2))
            = 0.4 * gHat (defSeed p) (t * Nx + (j + m - 2))
        rw [hseed]
      · rfl
    unfold generateEmField
    rw [hA]

/-- Witness for `claim_C9_amended`: two oracles that agree on stream 42
but differ on every other stream decode identically. -/
theorem claim_C9_amended_witness :
    decodeBitsFromTrace (fun _ _ => 0) [1] [1] 1 0 1
      = decodeBitsFromTrace (fun s _ => if s = 42 then 0 else 1) [1] [1] 1 0 1 :=
  (claim_C9_amended (fun _ _ => 0) (fun s _ => if s = 42 then 0 else 1)).1
    [1] [1] 1 0 1 (fun _ => by norm_num)

end CoTel
